import Mathlib

/-!
The track-rendering pipeline of `src/blip.c`.

A shallow embedding of `blip.c` (input buffering, output naming, the per-track
decode loop and the driver `main`) together with the properties stated about it.

Conventions of the embedding:

* C strings are `List Char` (no embedded NUL); a `char *` that may be `NULL` is an `Option`.
* `size_t` is 64 bits wide; its arithmetic is taken modulo `2 ^ 64`.
* `int` and `long` values are `Int`, without wrap-around (signed overflow is undefined in C).
* Calls into libc, libgme and libsndfile are functions supplied by the caller of the model.
* A result `none` of `enumerated_path`, `open_enumerated_file`, `copy_metadata`,
  `render_track`, `track_loop`, `render_tracks` or `main` stands for undefined behaviour
  (a null pointer passed to `strstr`, a format directive without a matching argument, a
  null `info` dereferenced) or for a `play` loop that was still running when its
  iteration bound was reached.
-/

namespace Blip

/-! ## Constants of the C environment -/

/-- `EXIT_SUCCESS` of `<stdlib.h>`. -/
def EXIT_SUCCESS : Int := 0

/-- `EXIT_FAILURE` of `<stdlib.h>`. -/
def EXIT_FAILURE : Int := 1

/-- `SFM_READ` of `<sndfile.h>`, the value of `IO_INPUT`. -/
def IO_INPUT : Int := 0x10

/-- `SFM_WRITE` of `<sndfile.h>`, the value of `IO_OUTPUT`. -/
def IO_OUTPUT : Int := 0x20

/-- `STDIN_FILENO` of `<unistd.h>`. -/
def STDIN_FILENO : Int := 0

/-- `STDOUT_FILENO` of `<unistd.h>`. -/
def STDOUT_FILENO : Int := 1

/-- `SF_FORMAT_WAV | SF_FORMAT_PCM_16` of `<sndfile.h>`. -/
def SF_FORMAT_WAV_PCM_16 : Int := 0x010002

/-- `SF_STR_TITLE` of `<sndfile.h>`. -/
def SF_STR_TITLE : Int := 0x01

/-- `SF_STR_COPYRIGHT` of `<sndfile.h>`. -/
def SF_STR_COPYRIGHT : Int := 0x02

/-- `SF_STR_ARTIST` of `<sndfile.h>`. -/
def SF_STR_ARTIST : Int := 0x04

/-- `SF_STR_COMMENT` of `<sndfile.h>`. -/
def SF_STR_COMMENT : Int := 0x05

/-- `SF_STR_ALBUM` of `<sndfile.h>`. -/
def SF_STR_ALBUM : Int := 0x07

/-- Number of values of `size_t` (LP64). -/
def SIZE_MOD : Nat := 2 ^ 64

/-- Value of `PATH_MAX` in the Linux `<limits.h>`; the functions below take the constant
as a parameter. -/
def LINUX_PATH_MAX : Nat := 4096

/-- A C `double`, carried as its IEEE-754 bit pattern; the program only passes it on. -/
structure Double where
  bits : Nat
deriving DecidableEq, Repr

/-- A `gme_err_t`: `none` is the null pointer (success), `some msg` an error message. -/
abbrev gme_err_t := Option String

/-! ## Options (`init_options`, lines 19-121) -/

/-- The fields of `struct options_s`. -/
structure options_s where
  input : Option (List Char)
  output : Option (List Char)
  track : Int
  samplerate : Int
  duration : Int
  fadeout : Int
  pan : Double
  help : Bool
deriving DecidableEq, Repr

/-- Conversion of a `long` to `int` (the assignments `opts->track = atol(optarg)`). -/
def long_to_int (x : Int) : Int := (x + 2 ^ 31) % 2 ^ 32 - 2 ^ 31

/-- The `while`/`switch` of `init_options` over the successive results of `getopt_long`,
each given as the returned option character and the value of `optarg`. -/
def parse_options (atol : List Char → Int) (atof : List Char → Double) :
    List (Char × List Char) → options_s → Option options_s
  | [], opts => some opts
  | (opt, optarg) :: rest, opts =>
    if opt = 'o' then parse_options atol atof rest { opts with output := some optarg }
    else if opt = 't' then
      parse_options atol atof rest { opts with track := long_to_int (atol optarg) }
    else if opt = 's' then
      parse_options atol atof rest { opts with samplerate := long_to_int (atol optarg) }
    else if opt = 'd' then
      parse_options atol atof rest { opts with duration := long_to_int (atol optarg) }
    else if opt = 'f' then
      parse_options atol atof rest { opts with fadeout := long_to_int (atol optarg) }
    else if opt = 'p' then parse_options atol atof rest { opts with pan := atof optarg }
    else if opt = 'h' then parse_options atol atof rest { opts with help := true }
    else if opt = '?' then none
    else if opt = ':' then none
    else parse_options atol atof rest opts

/-- Model of `init_options`: `none` is the return value `false`. `getopt` lists what
`getopt_long` returns before `-1`, `operand` is `argv[optind]` when `optind < argc`. -/
def init_options (atol : List Char → Int) (atof : List Char → Double)
    (getopt : List (Char × List Char)) (operand : Option (List Char)) : Option options_s :=
  let opts : options_s :=
    { input := none, output := none, track := -1, samplerate := 44100, duration := 180,
      fadeout := 5, pan := ⟨0⟩, help := false }
  match parse_options atol atof getopt opts with
  | none => none
  | some opts => some { opts with input := operand }

/-! ## Opening files (`open_file`, `open_enumerated_file`, `close_file`, lines 129-168) -/

/-- The flags `open_file` passes to open(2). -/
inductive OpenFlags where
  | rdonly
  | wronly_creat_trunc
deriving DecidableEq, Repr

/-- What a call of `open_file` does: return `-1` at once, call open(2) on a path, or
return one of the standard descriptors without any system call. -/
inductive FileAction where
  | invalid
  | sys (path : List Char) (flags : OpenFlags)
  | std (fd : Int)
deriving DecidableEq, Repr

/-- Model of `open_file`. -/
def open_file (path : Option (List Char)) (mode : Int) : FileAction :=
  if mode ≠ IO_INPUT ∧ mode ≠ IO_OUTPUT then FileAction.invalid
  else
    match path with
    | some p =>
      if p ≠ ['-'] then
        FileAction.sys p
          (if mode = IO_INPUT then OpenFlags.rdonly else OpenFlags.wronly_creat_trunc)
      else FileAction.std (if mode = IO_INPUT then STDIN_FILENO else STDOUT_FILENO)
    | none => FileAction.std (if mode = IO_INPUT then STDIN_FILENO else STDOUT_FILENO)

/-- Rendering of the conversion `%d`. -/
def fmtInt (i : Int) : List Char :=
  if i < 0 then '-' :: Nat.toDigits 10 i.natAbs else Nat.toDigits 10 i.natAbs

/-- A variadic argument of `snprintf`. -/
inductive Arg where
  | int (i : Int)
  | str (s : List Char)
deriving DecidableEq, Repr

/-- Output of a printf format: ordinary characters, `%%`, `%d` with an `int` argument and
`%s` with a string argument. Any other directive, and a directive whose argument is
missing or of the other kind, gives `none`. -/
def vformat : List Char → List Arg → Option (List Char)
  | [], _ => some []
  | c :: rest, args =>
    if c = '%' then
      match rest, args with
      | '%' :: rest', args => (vformat rest' args).map (fun out => '%' :: out)
      | 'd' :: rest', Arg.int i :: args' => (vformat rest' args').map (fun out => fmtInt i ++ out)
      | 's' :: rest', Arg.str s :: args' => (vformat rest' args').map (fun out => s ++ out)
      | _, _ => none
    else (vformat rest args).map (fun out => c :: out)

/-- Model of `snprintf(buf, size, format, args...)`: the string left in `buf`, at most
`size - 1` characters of the formatted output. -/
def snprintf (size : Nat) (format : List Char) (args : List Arg) : Option (List Char) :=
  (vformat format args).map (fun out => out.take (size - 1))

/-- The string `newpath` that `open_enumerated_file` builds (lines 148-157). -/
def enumerated_path (PATH_MAX : Nat) (path : Option (List Char)) (index : Int) :
    Option (List Char) :=
  match path with
  | none => none
  | some p =>
    if ¬ (['%', 'd'] <:+: p) then
      snprintf PATH_MAX ['%', 'd', '-', '%', 's'] [Arg.int index, Arg.str p]
    else
      snprintf PATH_MAX p [Arg.int index]

/-- Model of `open_enumerated_file`. -/
def open_enumerated_file (PATH_MAX : Nat) (path : Option (List Char)) (mode : Int)
    (index : Int) : Option FileAction :=
  (enumerated_path PATH_MAX path index).map (fun newpath => open_file (some newpath) mode)

/-! ## Buffering the input (`buffer_file`, lines 170-203) -/

/-- A block returned by `malloc`; its bytes are indeterminate and taken to be zero. -/
def malloc (n : Nat) : List UInt8 := List.replicate n 0

/-- The block after `realloc(block, n)`: the old bytes up to the new size. -/
def realloc (block : List UInt8) (n : Nat) : List UInt8 :=
  (block ++ List.replicate (n - block.length) 0).take n

/-- The block after read(2) has stored `chunk` at offset `off`. -/
def store (block : List UInt8) (off : Nat) (chunk : List UInt8) : List UInt8 :=
  block.take off ++ chunk ++ block.drop (off + chunk.length)

/-- The local variables of `buffer_file`: the contents of the block `tmpbuf` points to,
`tmpbufsiz`, `navail` and the offset `p - tmpbuf`. -/
structure BufState where
  tmpbuf : List UInt8
  tmpbufsiz : Nat
  navail : Nat
  p : Nat
deriving DecidableEq, Repr

/-- The behaviour of read(2) on a descriptor: `chunks` are the bytes delivered by the
successive calls that return a non-negative count, after which a call returns `-1` when
`fails` is set and `0` otherwise. -/
structure ReadTrace where
  chunks : List (List UInt8)
  fails : Bool
deriving DecidableEq, Repr

/-- The state on entry to the loop (lines 176-177). -/
def bufInit : BufState :=
  { tmpbuf := malloc 1024, tmpbufsiz := 1024, navail := 1024, p := 0 }

/-- One pass through the loop body (lines 181-190) after a read that delivered `chunk`. -/
def readStep (s : BufState) (chunk : List UInt8) : BufState :=
  let nread := chunk.length
  let mem := store s.tmpbuf s.p chunk
  let navail := (s.navail + SIZE_MOD - nread) % SIZE_MOD
  if navail = 0 then
    let navail := s.tmpbufsiz
    let tmpbufsiz := (s.tmpbufsiz * 2) % SIZE_MOD
    let tmpbuf := realloc mem tmpbufsiz
    { tmpbuf := tmpbuf, tmpbufsiz := tmpbufsiz, navail := navail,
      p := (tmpbufsiz + SIZE_MOD - navail) % SIZE_MOD }
  else
    { tmpbuf := mem, tmpbufsiz := s.tmpbufsiz, navail := navail,
      p := (s.tmpbufsiz + SIZE_MOD - navail) % SIZE_MOD }

/-- The `while` loop of `buffer_file`: the last value of `nread` and the final state. -/
def readLoop : List (List UInt8) → Bool → BufState → Int × BufState
  | [], fails, s => (if fails then -1 else 0, s)
  | c :: cs, fails, s => if 0 < c.length then readLoop cs fails (readStep s c) else (0, s)

/-- Model of `buffer_file`: `none` is the return value `false`, `some (buf, bufsiz)` the
block and the length stored through the out-parameters. -/
def buffer_file (fd : ReadTrace) : Option (List UInt8 × Nat) :=
  let r := readLoop fd.chunks fd.fails bufInit
  if r.1 = -1 then none else some (r.2.tmpbuf, r.2.p)

/-- The reads in `cs`, issued from state `s`, each return a positive count that is no
larger than the space `navail` offered to them. -/
def Admissible : BufState → List (List UInt8) → Prop
  | _, [] => True
  | s, c :: cs => 0 < c.length ∧ c.length ≤ s.navail ∧ Admissible (readStep s c) cs

instance instDecidableAdmissible :
    ∀ (s : BufState) (cs : List (List UInt8)), Decidable (Admissible s cs)
  | _, [] => isTrue trivial
  | s, c :: cs =>
    have := instDecidableAdmissible (readStep s c) cs
    inferInstanceAs (Decidable (0 < c.length ∧ c.length ≤ s.navail ∧ Admissible (readStep s c) cs))

/-- State of the read loop once the reads in `cs` have been consumed. -/
def stateAt (cs : List (List UInt8)) : BufState := (readLoop cs false bufInit).2

/-! ## Rendering one track (`play`, `write_samples`, `copy_metadata`, lines 205-253) -/

/-- The strings of a `gme_info_t` that the program reads. -/
structure gme_info_t where
  song : String
  game : String
  author : String
  copyright : String
  comment : String
deriving DecidableEq, Repr

/-- The functions of libgme called on an open decoder, over decoder states `σ`. Each takes
the state of the `Music_Emu` and returns its result with the state after the call;
`gme_play emu n` also returns the contents of the sample buffer after the call. -/
structure Emu (σ : Type) where
  gme_start_track : σ → Int → gme_err_t × σ
  gme_seek : σ → Int → gme_err_t × σ
  gme_set_fade : σ → Int → σ
  gme_set_stereo_depth : σ → Double → σ
  gme_tell : σ → Int
  gme_play : σ → Nat → gme_err_t × List Int × σ
  gme_track_count : σ → Int
  gme_track_info : σ → Int → Option gme_info_t

/-- Model of `print_error`: the text written to the standard error stream. -/
def print_error (message : String) : String := "error: " ++ message ++ "\n"

/-- Result of `play`: the return value, the decoder state, the state of the sample
consumer and the lines written to the standard error stream. -/
structure PlayResult (σ κ : Type) where
  ret : Bool
  emu : σ
  ctx : κ
  stderr : List String
deriving DecidableEq, Repr

/-- The four configuration calls of `play` (lines 211-214); their results are not
inspected. -/
def play_setup {σ : Type} (E : Emu σ) (emu : σ) (track duration fadeout : Int) (pan : Double) :
    σ :=
  let emu := (E.gme_start_track emu track).2
  let emu := (E.gme_seek emu 0).2
  let emu := E.gme_set_fade emu ((duration - fadeout) * 1000)
  E.gme_set_stereo_depth emu pan

/-- The `while` loop of `play` (lines 216-230), run for at most `fuel` evaluations of its
condition; `none` when the loop is still running after that many. -/
def play_loop {σ κ : Type} (E : Emu σ) (duration : Int)
    (sample_handler : List Int → Nat → κ → κ) : Nat → σ → κ → Option (PlayResult σ κ)
  | 0, _, _ => none
  | fuel + 1, emu, ctx =>
    let pos := E.gme_tell emu
    if pos < duration * 1000 then
      match E.gme_play emu 1024 with
      | (some emu_err, _, emu) =>
        some { ret := false, emu := emu, ctx := ctx, stderr := [print_error emu_err] }
      | (none, samplebuf, emu) =>
        play_loop E duration sample_handler fuel emu (sample_handler samplebuf 1024 ctx)
    else some { ret := true, emu := emu, ctx := ctx, stderr := [] }

/-- Model of `play`. -/
def play {σ κ : Type} (E : Emu σ) (fuel : Nat) (emu : σ) (track duration fadeout : Int)
    (pan : Double) (sample_handler : List Int → Nat → κ → κ) (ctx : κ) :
    Option (PlayResult σ κ) :=
  play_loop E duration sample_handler fuel (play_setup E emu track duration fadeout pan) ctx

/-- Decoder state at the start of iteration `k` of the loop, when the `k` decode calls
before it succeeded. -/
def emuAt {σ : Type} (E : Emu σ) (emu : σ) : Nat → σ
  | 0 => emu
  | k + 1 => (E.gme_play (emuAt E emu k) 1024).2.2

/-- The sample buffer that the decode call of iteration `k` leaves behind. -/
def chunkAt {σ : Type} (E : Emu σ) (emu : σ) (k : Nat) : List Int :=
  (E.gme_play (emuAt E emu k) 1024).2.1

/-- Iteration `k` ends the loop: the position has reached `duration * 1000`, or the
decode call reports an error. -/
def StopsAt {σ : Type} (E : Emu σ) (duration : Int) (emu : σ) (k : Nat) : Prop :=
  duration * 1000 ≤ E.gme_tell (emuAt E emu k) ∨ (E.gme_play (emuAt E emu k) 1024).1 ≠ none

/-- A sample consumer that records the calls made to it. -/
def record_samples (samplebuf : List Int) (samplebufsiz : Nat) (ctx : List (List Int × Nat)) :
    List (List Int × Nat) :=
  ctx ++ [(samplebuf, samplebufsiz)]

/-! ## The driver (`main`, lines 308-417) -/

/-- The fields of `SF_INFO` that `main` assigns. -/
structure SF_INFO where
  samplerate : Int
  channels : Int
  format : Int
deriving DecidableEq, Repr

/-- The system and library calls of `main`, over world states `ω` and decoder states `σ`.
A `SNDFILE *` is a natural number, `none` the null pointer. -/
structure Sys (ω σ : Type) where
  emu : Emu σ
  sys_open : ω → List Char → OpenFlags → Int × ω
  sys_close : ω → Int → ω
  read_trace : ω → Int → ReadTrace
  gme_open_data : List UInt8 → Int → Except String σ
  sf_open_fd : ω → Int → Int → SF_INFO → Option Nat × ω
  sf_write_short : ω → Nat → List Int → Nat → ω
  sf_set_string : ω → Nat → Int → String → ω
  sf_close : ω → Nat → ω

/-- The descriptor a `FileAction` yields. -/
def perform {ω σ : Type} (S : Sys ω σ) (w : ω) : FileAction → Int × ω
  | FileAction.invalid => (-1, w)
  | FileAction.sys path flags => S.sys_open w path flags
  | FileAction.std fd => (fd, w)

/-- Model of `close_file`. -/
def close_file {ω σ : Type} (S : Sys ω σ) (w : ω) (fd : Int) : ω :=
  if fd ≠ STDIN_FILENO ∧ fd ≠ STDOUT_FILENO then S.sys_close w fd else w

/-- Model of `write_samples`, with the `SNDFILE *` passed as `ctx` fixed. -/
def write_samples {ω σ : Type} (S : Sys ω σ) (sndfile : Nat) (samplebuf : List Int)
    (samplebufsiz : Nat) (w : ω) : ω :=
  S.sf_write_short w sndfile samplebuf samplebufsiz

/-- Model of `copy_metadata`; `none` when `gme_track_info` leaves `info` null. -/
def copy_metadata {ω σ : Type} (S : Sys ω σ) (emu : σ) (track : Int) (sndfile : Nat) (w : ω) :
    Option ω :=
  match S.emu.gme_track_info emu track with
  | none => none
  | some info =>
    let w := S.sf_set_string w sndfile SF_STR_TITLE info.song
    let w := S.sf_set_string w sndfile SF_STR_ALBUM info.game
    let w := S.sf_set_string w sndfile SF_STR_ARTIST info.author
    let w := S.sf_set_string w sndfile SF_STR_COPYRIGHT info.copyright
    some (S.sf_set_string w sndfile SF_STR_COMMENT info.comment)

/-- How the body of the track loop ended for one track. -/
inductive TrackOutcome where
  | open_failed
  | sink_failed
  | played (ret : Bool)
deriving DecidableEq, Repr

/-- One request for an output made by the body of the track loop (line 349): the index
passed to `open_enumerated_file`, what `open_file` did for the path built from it, the
descriptor that came back, and how the body went on from there. -/
structure Attempt where
  index : Int
  action : FileAction
  output : Int
  outcome : TrackOutcome
deriving DecidableEq, Repr

/-- The body of the `for` loop of `main` for one track (lines 349-379); the `Attempt` it
returns records its call of `open_enumerated_file`. -/
def render_track {ω σ : Type} (S : Sys ω σ) (fuel PATH_MAX : Nat) (opts : options_s)
    (track : Int) (w : ω) (emu : σ) : Option (Attempt × ω × σ) :=
  match open_enumerated_file PATH_MAX opts.output IO_OUTPUT track with
  | none => none
  | some action =>
    match perform S w action with
    | (output, w) =>
      if output ≠ -1 then
        let sfinfo : SF_INFO :=
          { samplerate := opts.samplerate, channels := 2, format := SF_FORMAT_WAV_PCM_16 }
        match S.sf_open_fd w output IO_OUTPUT sfinfo with
        | (some sndfile, w) =>
          match play S.emu fuel emu track opts.duration opts.fadeout opts.pan
              (write_samples S sndfile) w with
          | none => none
          | some r =>
            match copy_metadata S r.emu track sndfile r.ctx with
            | none => none
            | some w =>
              let w := S.sf_close w sndfile
              some ({ index := track, action := action, output := output,
                      outcome := TrackOutcome.played r.ret }, close_file S w output, r.emu)
        | (none, w) =>
          some ({ index := track, action := action, output := output,
                  outcome := TrackOutcome.sink_failed }, close_file S w output, emu)
      else
        some ({ index := track, action := action, output := output,
                outcome := TrackOutcome.open_failed }, w, emu)

/-- The `for` loop of `main` (line 347) with `n` iterations left: the requests for an
output that the bodies made, in order. -/
def track_loop {ω σ : Type} (S : Sys ω σ) (fuel PATH_MAX : Nat) (opts : options_s) :
    Nat → Int → ω → σ → Option (List Attempt × ω × σ)
  | 0, _, w, emu => some ([], w, emu)
  | n + 1, track, w, emu =>
    match render_track S fuel PATH_MAX opts track w emu with
    | none => none
    | some (attempt, w, emu) =>
      match track_loop S fuel PATH_MAX opts n (track + 1) w emu with
      | none => none
      | some (log, w, emu) => some (attempt :: log, w, emu)

/-- Lines 338-381 of `main`: the choice of the tracks and the loop over them. -/
def render_tracks {ω σ : Type} (S : Sys ω σ) (fuel PATH_MAX : Nat) (opts : options_s)
    (w : ω) (emu : σ) : Option (List Attempt × ω × σ) :=
  let ntracks := S.emu.gme_track_count emu
  let track : Int := 0
  if opts.track ≠ -1 then
    let track := opts.track
    let ntracks : Int := 1
    track_loop S fuel PATH_MAX opts ntracks.toNat track w emu
  else
    track_loop S fuel PATH_MAX opts ntracks.toNat track w emu

/-- The bodies of the `n` iterations of the track loop that start with `track`, world `w`
and decoder state `emu` each return: none of them runs into undefined behaviour and every
`play` they start ends within `fuel` iterations. -/
def BodiesReturn {ω σ : Type} (S : Sys ω σ) (fuel PATH_MAX : Nat) (opts : options_s) :
    Nat → Int → ω → σ → Prop
  | 0, _, _, _ => True
  | n + 1, track, w, emu =>
    match render_track S fuel PATH_MAX opts track w emu with
    | none => False
    | some (_, w, emu) => BodiesReturn S fuel PATH_MAX opts n (track + 1) w emu

instance instDecidableBodiesReturn {ω σ : Type} (S : Sys ω σ) (fuel PATH_MAX : Nat)
    (opts : options_s) :
    ∀ (n : Nat) (track : Int) (w : ω) (emu : σ),
      Decidable (BodiesReturn S fuel PATH_MAX opts n track w emu)
  | 0, _, _, _ => isTrue trivial
  | n + 1, track, w, emu =>
    match h : render_track S fuel PATH_MAX opts track w emu with
    | none => isFalse (by simp [BodiesReturn, h])
    | some (_, w1, emu1) =>
      match instDecidableBodiesReturn S fuel PATH_MAX opts n (track + 1) w1 emu1 with
      | isTrue hp => isTrue (by simpa [BodiesReturn, h] using hp)
      | isFalse hn => isFalse (by simpa [BodiesReturn, h] using hn)

/-- Result of `main`: the exit status, the requests for an output made by the track loop,
and the final world. -/
structure MainResult (ω : Type) where
  rc : Int
  attempts : List Attempt
  world : ω
deriving DecidableEq, Repr

/-- Model of `main`; the diagnostics written to the standard error stream are left out. -/
def main {ω σ : Type} (S : Sys ω σ) (fuel PATH_MAX : Nat) (atol : List Char → Int)
    (atof : List Char → Double) (getopt : List (Char × List Char))
    (operand : Option (List Char)) (w : ω) : Option (MainResult ω) :=
  let rc := EXIT_FAILURE
  match init_options atol atof getopt operand with
  | some opts =>
    if opts.help then
      let rc := EXIT_SUCCESS
      some { rc := rc, attempts := [], world := w }
    else
      match perform S w (open_file opts.input IO_INPUT) with
      | (input, w) =>
        if input ≠ -1 then
          match buffer_file (S.read_trace w input) with
          | some (buf, bufsiz) =>
            match S.gme_open_data (buf.take bufsiz) opts.samplerate with
            | Except.ok emu =>
              match render_tracks S fuel PATH_MAX opts w emu with
              | none => none
              | some (log, w, _) =>
                some { rc := rc, attempts := log, world := close_file S w input }
            | Except.error _ => some { rc := rc, attempts := [], world := close_file S w input }
          | none => some { rc := rc, attempts := [], world := close_file S w input }
        else some { rc := rc, attempts := [], world := w }
  | none => some { rc := rc, attempts := [], world := w }

/-! ## Auxiliary definitions for the proofs -/

/-- Value of a decimal digit character. -/
def digitVal (c : Char) : Nat := c.toNat - 48

/-- Value of a string of decimal digits. -/
def decVal (cs : List Char) : Nat := cs.foldl (fun a c => 10 * a + digitVal c) 0

/-- Loop invariant of `buffer_file`, relative to the bytes `acc` read so far. -/
structure BufInv (s : BufState) (acc : List UInt8) : Prop where
  off : s.p = acc.length
  cap : s.p + s.navail = s.tmpbufsiz
  avail : 1 ≤ s.navail
  len : s.tmpbuf.length = s.tmpbufsiz
  data : s.tmpbuf.take s.p = acc
  pow : ∃ k, s.tmpbufsiz = 1024 * 2 ^ k
  small : s.tmpbufsiz < SIZE_MOD

instance instDecidableStopsAt {σ : Type} (E : Emu σ) (duration : Int) (emu : σ) (k : Nat) :
    Decidable (StopsAt E duration emu k) :=
  inferInstanceAs (Decidable (duration * 1000 ≤ E.gme_tell (emuAt E emu k) ∨
    (E.gme_play (emuAt E emu k) 1024).1 ≠ none))

/-! ## A small concrete environment, used to evaluate the model -/

/-- A decoder with two tracks whose state is the playback position in milliseconds: a
decode call always succeeds, fills the buffer and advances the position by 500 ms;
selecting a track outside `0, 1` is an error. -/
def toyEmu : Emu Nat where
  gme_start_track := fun pos track =>
    if 0 ≤ track ∧ track < 2 then (none, 0) else (some "Invalid track", pos)
  gme_seek := fun _ msec => (none, msec.toNat)
  gme_set_fade := fun pos _ => pos
  gme_set_stereo_depth := fun pos _ => pos
  gme_tell := fun pos => (pos : Int)
  gme_play := fun pos n => (none, List.replicate n (pos : Int), pos + 500)
  gme_track_count := fun _ => 2
  gme_track_info := fun _ _ => some ⟨"", "", "", "", ""⟩

/-- A world that records the paths passed to open(2): every open succeeds with
descriptor 3, every input holds the four bytes `NESM`, every non-empty buffer is a valid
container and every sound file handle can be created. -/
def toySys : Sys (List (List Char)) Nat where
  emu := toyEmu
  sys_open := fun w path _ => (3, w ++ [path])
  sys_close := fun w _ => w
  read_trace := fun _ _ => ⟨[[0x4e, 0x45, 0x53, 0x4d]], false⟩
  gme_open_data := fun buf _ =>
    if buf = [] then Except.error "Wrong file type for this emulator" else Except.ok 0
  sf_open_fd := fun w _ _ _ => (some 1, w)
  sf_write_short := fun w _ _ _ => w
  sf_set_string := fun w _ _ _ => w
  sf_close := fun w _ => w

/-- An `atol` for strings of decimal digits. -/
def toyAtol (s : List Char) : Int := (decVal s : Int)

/-- An `atof` that always yields `0.0`. -/
def toyAtof (_ : List Char) : Double := ⟨0⟩

/-- The options after `-o out.wav -d 1 in.nsf`. -/
def toyOpts : options_s :=
  { input := some "in.nsf".toList, output := some "out.wav".toList, track := -1,
    samplerate := 44100, duration := 1, fadeout := 5, pan := ⟨0⟩, help := false }

/-- A decoder with four tracks whose state is the playback position in milliseconds and
the selected track: decoding track 3 reports an error, the other tracks decode as in
`toyEmu`; selecting a track outside `0, ..., 3` is an error and there is no track
information for it. -/
def mixEmu : Emu (Nat × Int) where
  gme_start_track := fun s track =>
    if 0 ≤ track ∧ track < 4 then (none, (0, track)) else (some "Invalid track", s)
  gme_seek := fun s msec => (none, (msec.toNat, s.2))
  gme_set_fade := fun s _ => s
  gme_set_stereo_depth := fun s _ => s
  gme_tell := fun s => (s.1 : Int)
  gme_play := fun s n =>
    if s.2 = 3 then (some "Emulation error", [], s)
    else (none, List.replicate n (s.1 : Int), (s.1 + 500, s.2))
  gme_track_count := fun _ => 4
  gme_track_info := fun _ track =>
    if 0 ≤ track ∧ track < 4 then some ⟨"", "", "", "", ""⟩ else none

/-- A world that records the paths passed to open(2): the open of `0-out.wav` fails, every
other open returns the descriptor 3 plus the number of earlier calls; no sound file handle
can be created on descriptor 5. -/
def mixSys : Sys (List (List Char)) (Nat × Int) where
  emu := mixEmu
  sys_open := fun w path _ =>
    (if path = "0-out.wav".toList then -1 else 3 + (w.length : Int), w ++ [path])
  sys_close := fun w _ => w
  read_trace := fun _ _ => ⟨[[0x4e, 0x45, 0x53, 0x4d]], false⟩
  gme_open_data := fun buf _ =>
    if buf = [] then Except.error "Wrong file type for this emulator" else Except.ok (0, 0)
  sf_open_fd := fun w fd _ _ => (if fd = 5 then none else some 1, w)
  sf_write_short := fun w _ _ _ => w
  sf_set_string := fun w _ _ _ => w
  sf_close := fun w _ => w

/-! ## Proofs: input buffering -/

theorem bufInv_init : BufInv bufInit [] := by
  refine ⟨rfl, rfl, by decide, List.length_replicate _ _, List.take_zero _, ⟨0, rfl⟩, by decide⟩

theorem store_length (b : List UInt8) (off : Nat) (c : List UInt8) (h : off + c.length ≤ b.length) :
    (store b off c).length = b.length := by
  simp [store]; omega

theorem store_take (b : List UInt8) (off : Nat) (c : List UInt8) (h : off + c.length ≤ b.length) :
    (store b off c).take (off + c.length) = b.take off ++ c := by
  have h1 : (b.take off ++ c).length = off + c.length := by simp; omega
  unfold store
  rw [← h1, List.take_left]

theorem realloc_take (b : List UInt8) (n m : Nat) (h : m ≤ b.length) (h2 : b.length ≤ n) :
    (realloc b n).take m = b.take m := by
  unfold realloc
  rw [List.take_take, Nat.min_eq_left (by omega), List.take_append_of_le_length h]

theorem realloc_length (b : List UInt8) (n : Nat) (h2 : b.length ≤ n) :
    (realloc b n).length = n := by
  simp [realloc]; omega

theorem bufInv_step (s : BufState) (acc c : List UInt8) (h : BufInv s acc)
    (hpos : 0 < c.length) (hfit : c.length ≤ s.navail) (hL : (acc ++ c).length < 2 ^ 63) :
    BufInv (readStep s c) (acc ++ c) := by
  obtain ⟨hoff, hcap, havail, hlen, hdata, ⟨k, hk⟩, hsmall⟩ := h
  have hL' : acc.length + c.length < 2 ^ 63 := by simpa using hL
  have hst : (store s.tmpbuf s.p c).take (s.p + c.length) = acc ++ c := by
    rw [store_take _ _ _ (by omega), hdata]
  have hsl : (store s.tmpbuf s.p c).length = s.tmpbufsiz := by
    rw [store_length _ _ _ (by omega), hlen]
  simp only [SIZE_MOD] at hsmall
  by_cases hz : c.length = s.navail
  · have e1 : (s.navail + SIZE_MOD - c.length) % SIZE_MOD = 0 := by
      simp only [SIZE_MOD]; omega
    have e2 : (s.tmpbufsiz * 2) % SIZE_MOD = s.tmpbufsiz * 2 := by
      simp only [SIZE_MOD]; omega
    have e3 : (s.tmpbufsiz * 2 + SIZE_MOD - s.tmpbufsiz) % SIZE_MOD = s.tmpbufsiz := by
      simp only [SIZE_MOD]; omega
    simp only [readStep, e1, if_true, e2, e3]
    refine ⟨?_, ?_, ?_, ?_, ?_, ⟨k + 1, ?_⟩, ?_⟩
    · simp; omega
    · simp; omega
    · simp; omega
    · simp only; rw [realloc_length _ _ (by omega)]
    · simp only; rw [realloc_take _ _ _ (by omega) (by omega)]
      have : s.tmpbufsiz = s.p + c.length := by omega
      rw [this, hst]
    · simp only; rw [hk]; ring
    · simp only [SIZE_MOD]; omega
  · have e1 : (s.navail + SIZE_MOD - c.length) % SIZE_MOD = s.navail - c.length := by
      simp only [SIZE_MOD]; omega
    have e0 : ¬ (s.navail - c.length = 0) := by omega
    have e3 : (s.tmpbufsiz + SIZE_MOD - (s.navail - c.length)) % SIZE_MOD = s.p + c.length := by
      simp only [SIZE_MOD]; omega
    simp only [readStep, e1, e0, if_false, e3]
    refine ⟨?_, ?_, ?_, ?_, ?_, ⟨k, hk⟩, ?_⟩
    · simp; omega
    · simp only; omega
    · simp only; omega
    · simp only; exact hsl
    · simp only; exact hst
    · simp only [SIZE_MOD]; omega

theorem admissible_append (cs ds : List (List UInt8)) :
    ∀ s, Admissible s (cs ++ ds) → Admissible s cs ∧ Admissible (readLoop cs false s).2 ds := by
  induction cs with
  | nil => intro s h; exact ⟨trivial, h⟩
  | cons c cs ih =>
    intro s h
    obtain ⟨hpos, hfit, hrest⟩ := h
    obtain ⟨h1, h2⟩ := ih _ hrest
    refine ⟨⟨hpos, hfit, h1⟩, ?_⟩
    simpa [readLoop, hpos] using h2

theorem readLoop_inv (cs : List (List UInt8)) :
    ∀ (s : BufState) (acc : List UInt8), BufInv s acc → Admissible s cs →
      (acc ++ cs.flatten).length < 2 ^ 63 →
      (readLoop cs false s).1 = 0 ∧ BufInv (readLoop cs false s).2 (acc ++ cs.flatten) := by
  induction cs with
  | nil => intro s acc h _ _; simpa [readLoop] using h
  | cons c cs ih =>
    intro s acc h hadm hL
    obtain ⟨hpos, hfit, hrest⟩ := hadm
    have hL1 : (acc ++ c).length < 2 ^ 63 := by
      simp only [List.flatten, List.length_append] at hL ⊢; omega
    have hstep := bufInv_step s acc c h hpos hfit hL1
    have := ih (readStep s c) (acc ++ c) hstep hrest (by simpa [List.append_assoc] using hL)
    simpa [readLoop, hpos, List.append_assoc] using this

/-- C2: for every sequence of reads that each return a positive count no larger than the
space offered, followed by a read that returns 0, `buffer_file` succeeds, the length it
reports is the total number `L` of bytes read (also for `L = 0`), the block it returns
holds at least `L` bytes and its first `L` bytes are the bytes read, in order. The total
is below `2 ^ 63`, as the size of any object a 64-bit `size_t` can describe. -/
theorem buffer_file_complete (chunks : List (List UInt8))
    (hadm : Admissible bufInit chunks) (hL : chunks.flatten.length < 2 ^ 63) :
    ∃ buf : List UInt8,
      buffer_file ⟨chunks, false⟩ = some (buf, chunks.flatten.length) ∧
      chunks.flatten.length ≤ buf.length ∧
      buf.take chunks.flatten.length = chunks.flatten := by
  obtain ⟨h0, hinv⟩ := readLoop_inv chunks bufInit [] bufInv_init hadm (by simpa using hL)
  simp only [List.nil_append] at hinv
  refine ⟨(readLoop chunks false bufInit).2.tmpbuf, ?_, ?_, ?_⟩
  · simp [buffer_file, h0, hinv.off]
  · have := hinv.off; have := hinv.cap; have := hinv.len; omega
  · rw [← hinv.off]; exact hinv.data

theorem buffer_file_complete_witness :
    Admissible bufInit [[1, 2, 3], [4]] ∧
    ([[1, 2, 3], [4]] : List (List UInt8)).flatten.length < 2 ^ 63 ∧
    ∃ buf : List UInt8,
      buffer_file ⟨[[1, 2, 3], [4]], false⟩
        = some (buf, ([[1, 2, 3], [4]] : List (List UInt8)).flatten.length) ∧
      ([[1, 2, 3], [4]] : List (List UInt8)).flatten.length ≤ buf.length ∧
      buf.take ([[1, 2, 3], [4]] : List (List UInt8)).flatten.length
        = ([[1, 2, 3], [4]] : List (List UInt8)).flatten :=
  ⟨by decide, by decide, buffer_file_complete [[1, 2, 3], [4]] (by decide) (by decide)⟩

theorem readStep_capacity (s : BufState) (acc c : List UInt8) (h : BufInv s acc)
    (hfit : c.length ≤ s.navail) (hL : (acc ++ c).length < 2 ^ 63) :
    (readStep s c).tmpbufsiz = s.tmpbufsiz ∨ (readStep s c).tmpbufsiz = 2 * s.tmpbufsiz := by
  obtain ⟨hoff, hcap, havail, -, -, -, hsmall⟩ := h
  have hL' : acc.length + c.length < 2 ^ 63 := by simpa using hL
  simp only [SIZE_MOD] at hsmall
  by_cases hz : c.length = s.navail
  · have e1 : (s.navail + SIZE_MOD - c.length) % SIZE_MOD = 0 := by
      simp only [SIZE_MOD]; omega
    have e2 : (s.tmpbufsiz * 2) % SIZE_MOD = 2 * s.tmpbufsiz := by
      simp only [SIZE_MOD]; omega
    right
    simp only [readStep, e1, if_true, e2]
  · have e1 : (s.navail + SIZE_MOD - c.length) % SIZE_MOD = s.navail - c.length := by
      simp only [SIZE_MOD]; omega
    have e0 : ¬ (s.navail - c.length = 0) := by omega
    left
    simp only [readStep, e1, e0, if_false]

theorem readLoop_append (cs ds : List (List UInt8)) (fails : Bool) :
    ∀ s, Admissible s cs → readLoop (cs ++ ds) fails s = readLoop ds fails (readLoop cs false s).2 := by
  induction cs with
  | nil => intro s _; rfl
  | cons c cs ih =>
    intro s h
    obtain ⟨hpos, _, hrest⟩ := h
    simpa [readLoop, hpos] using ih _ hrest

/-- C10: in the state the read loop of `buffer_file` reaches after any admissible
sequence of reads `cs` (total below `2 ^ 63`): the capacity is 1024 before the first read
and always 1024 times a power of two, it is equal to or twice the capacity before the
last read, it is at least the number of bytes accumulated; the write offset is that
number, offset plus `navail` is the capacity, `navail` is at least 1, the block has the
size of the capacity, and it still starts with the bytes stored before the last read and
with all bytes read so far. -/
theorem buffer_file_capacity_invariant (cs : List (List UInt8))
    (hadm : Admissible bufInit cs) (hL : cs.flatten.length < 2 ^ 63) :
    (stateAt []).tmpbufsiz = 1024 ∧
    (∃ k, (stateAt cs).tmpbufsiz = 1024 * 2 ^ k) ∧
    ((stateAt cs).tmpbufsiz = (stateAt cs.dropLast).tmpbufsiz ∨
      (stateAt cs).tmpbufsiz = 2 * (stateAt cs.dropLast).tmpbufsiz) ∧
    cs.flatten.length ≤ (stateAt cs).tmpbufsiz ∧
    (stateAt cs).p = cs.flatten.length ∧
    (stateAt cs).p + (stateAt cs).navail = (stateAt cs).tmpbufsiz ∧
    1 ≤ (stateAt cs).navail ∧
    (stateAt cs).tmpbuf.length = (stateAt cs).tmpbufsiz ∧
    (stateAt cs).tmpbuf.take cs.dropLast.flatten.length = cs.dropLast.flatten ∧
    (stateAt cs).tmpbuf.take cs.flatten.length = cs.flatten := by
  have hinv : BufInv (stateAt cs) cs.flatten := by
    simpa using (readLoop_inv cs bufInit [] bufInv_init hadm (by simpa using hL)).2
  have hdata : (stateAt cs).tmpbuf.take cs.flatten.length = cs.flatten := by
    have := hinv.data; rw [hinv.off] at this; exact this
  have hprev : ((stateAt cs).tmpbufsiz = (stateAt cs.dropLast).tmpbufsiz ∨
      (stateAt cs).tmpbufsiz = 2 * (stateAt cs.dropLast).tmpbufsiz) ∧
      (stateAt cs).tmpbuf.take cs.dropLast.flatten.length = cs.dropLast.flatten := by
    rcases List.eq_nil_or_concat cs with rfl | ⟨pre, c, rfl⟩
    · exact ⟨Or.inl rfl, by simp⟩
    · rw [List.concat_eq_append] at hadm hL hdata ⊢
      rw [List.dropLast_concat]
      obtain ⟨hpre, hpos, hfit, -⟩ := admissible_append pre [c] bufInit hadm
      have hrun : stateAt (pre ++ [c]) = readStep (stateAt pre) c := by
        simp only [stateAt]
        rw [readLoop_append pre [c] false bufInit hpre]
        simp [readLoop, hpos]
      have hLpre : pre.flatten.length < 2 ^ 63 := by
        simp only [List.flatten_append, List.length_append] at hL; omega
      have hinvpre : BufInv (stateAt pre) pre.flatten := by
        simpa using (readLoop_inv pre bufInit [] bufInv_init hpre (by simpa using hLpre)).2
      constructor
      · rw [hrun]
        exact readStep_capacity _ _ c hinvpre hfit (by simpa using hL)
      · have h2 := congrArg (List.take pre.flatten.length) hdata
        rw [List.take_take] at h2
        simpa using h2
  exact ⟨rfl, hinv.pow, hprev.1, by have := hinv.off; have := hinv.cap; omega, hinv.off, hinv.cap,
    hinv.avail, hinv.len, hprev.2, hdata⟩

theorem buffer_file_capacity_invariant_witness :
    Admissible bufInit [[1, 2, 3], [4]] ∧
    ([[1, 2, 3], [4]] : List (List UInt8)).flatten.length < 2 ^ 63 ∧
    ((stateAt []).tmpbufsiz = 1024 ∧
    (∃ k, (stateAt [[1, 2, 3], [4]]).tmpbufsiz = 1024 * 2 ^ k) ∧
    ((stateAt [[1, 2, 3], [4]]).tmpbufsiz
        = (stateAt ([[1, 2, 3], [4]] : List (List UInt8)).dropLast).tmpbufsiz ∨
      (stateAt [[1, 2, 3], [4]]).tmpbufsiz
        = 2 * (stateAt ([[1, 2, 3], [4]] : List (List UInt8)).dropLast).tmpbufsiz) ∧
    ([[1, 2, 3], [4]] : List (List UInt8)).flatten.length
      ≤ (stateAt [[1, 2, 3], [4]]).tmpbufsiz ∧
    (stateAt [[1, 2, 3], [4]]).p = ([[1, 2, 3], [4]] : List (List UInt8)).flatten.length ∧
    (stateAt [[1, 2, 3], [4]]).p + (stateAt [[1, 2, 3], [4]]).navail
      = (stateAt [[1, 2, 3], [4]]).tmpbufsiz ∧
    1 ≤ (stateAt [[1, 2, 3], [4]]).navail ∧
    (stateAt [[1, 2, 3], [4]]).tmpbuf.length = (stateAt [[1, 2, 3], [4]]).tmpbufsiz ∧
    (stateAt [[1, 2, 3], [4]]).tmpbuf.take
        ([[1, 2, 3], [4]] : List (List UInt8)).dropLast.flatten.length
      = ([[1, 2, 3], [4]] : List (List UInt8)).dropLast.flatten ∧
    (stateAt [[1, 2, 3], [4]]).tmpbuf.take ([[1, 2, 3], [4]] : List (List UInt8)).flatten.length
      = ([[1, 2, 3], [4]] : List (List UInt8)).flatten) :=
  ⟨by decide, by decide,
    buffer_file_capacity_invariant [[1, 2, 3], [4]] (by decide) (by decide)⟩

/-! ## Proofs: decimal rendering -/

theorem digitVal_digitChar : ∀ k, k < 10 → digitVal (Nat.digitChar k) = k := by decide

theorem digitChar_ne : ∀ k, k < 10 → Nat.digitChar k ≠ '-' ∧ Nat.digitChar k ≠ '%' := by decide

theorem toDigitsCore_append (f : Nat) : ∀ (n : Nat) (ds : List Char),
    Nat.toDigitsCore 10 f n ds = Nat.toDigitsCore 10 f n [] ++ ds := by
  induction f with
  | zero => intro n ds; simp [Nat.toDigitsCore]
  | succ f ih =>
    intro n ds
    simp only [Nat.toDigitsCore]
    split
    · simp
    · rw [ih (n / 10) (Nat.digitChar (n % 10) :: ds), ih (n / 10) [Nat.digitChar (n % 10)]]
      simp

theorem decVal_toDigitsCore (f : Nat) : ∀ n, n < f → decVal (Nat.toDigitsCore 10 f n []) = n := by
  induction f with
  | zero => intro n h; omega
  | succ f ih =>
    intro n h
    have hd := digitVal_digitChar (n % 10) (Nat.mod_lt _ (by decide))
    simp only [Nat.toDigitsCore]
    split
    · rename_i h0
      simp only [decVal, List.foldl, hd]; omega
    · rename_i h0
      rw [toDigitsCore_append]
      have := ih (n / 10) (by omega)
      simp only [decVal, List.foldl_append, List.foldl] at this ⊢
      rw [this, hd]; omega

theorem toDigits_injective (m n : Nat) (h : Nat.toDigits 10 m = Nat.toDigits 10 n) : m = n := by
  have hm := decVal_toDigitsCore (m + 1) m (by omega)
  have hn := decVal_toDigitsCore (n + 1) n (by omega)
  unfold Nat.toDigits at h
  rw [h] at hm
  omega

theorem toDigitsCore_chars (f : Nat) : ∀ n, ∀ c ∈ Nat.toDigitsCore 10 f n [], c ≠ '-' ∧ c ≠ '%' := by
  induction f with
  | zero => intro n c hc; simp [Nat.toDigitsCore] at hc
  | succ f ih =>
    intro n c hc
    have hd := digitChar_ne (n % 10) (Nat.mod_lt _ (by decide))
    simp only [Nat.toDigitsCore] at hc
    split at hc
    · simp only [List.mem_singleton] at hc; rw [hc]; exact hd
    · rw [toDigitsCore_append] at hc
      simp only [List.mem_append, List.mem_singleton] at hc
      rcases hc with hc | hc
      · exact ih _ c hc
      · rw [hc]; exact hd

theorem toDigits_ne_nil (n : Nat) : Nat.toDigits 10 n ≠ [] := by
  unfold Nat.toDigits
  simp only [Nat.toDigitsCore]
  split
  · simp
  · rw [toDigitsCore_append]; simp

theorem toDigits_length_le (n : Nat) (h : n < 10 ^ 10) : (Nat.toDigits 10 n).length ≤ 10 :=
  Nat.toDigitsCore_length 10 (by decide) (n + 1) n 10 h (by decide)

theorem fmtInt_ne_nil (i : Int) : fmtInt i ≠ [] := by
  unfold fmtInt; split
  · simp
  · exact toDigits_ne_nil _

theorem fmtInt_length_le (i : Int) (hlo : -2 ^ 31 ≤ i) (hhi : i < 2 ^ 31) :
    (fmtInt i).length ≤ 11 := by
  have := toDigits_length_le i.natAbs (by omega)
  unfold fmtInt; split <;> simp <;> omega

theorem eq_of_append_sep {α : Type} (a : α) : ∀ (x₁ x₂ z₁ z₂ : List α), a ∉ x₁ → a ∉ x₂ →
    x₁ ++ a :: z₁ = x₂ ++ a :: z₂ → x₁ = x₂ ∧ z₁ = z₂ := by
  intro x₁
  induction x₁ with
  | nil =>
    intro x₂ z₁ z₂ _ h2 h
    cases x₂ with
    | nil => simpa using h
    | cons b bs =>
      simp only [List.nil_append, List.cons_append, List.cons.injEq] at h
      exact absurd (by rw [h.1]; simp) h2
  | cons c cs ih =>
    intro x₂ z₁ z₂ h1 h2 h
    cases x₂ with
    | nil =>
      simp only [List.nil_append, List.cons_append, List.cons.injEq] at h
      exact absurd (by rw [← h.1]; simp) h1
    | cons b bs =>
      simp only [List.cons_append, List.cons.injEq] at h
      have := ih bs z₁ z₂ (fun hc => h1 (List.mem_cons_of_mem _ hc))
        (fun hc => h2 (List.mem_cons_of_mem _ hc)) h.2
      exact ⟨by rw [h.1, this.1], this.2⟩

/-- Two renderings followed by a dash agree on a common prefix only for equal integers. -/
theorem fmtInt_dash_inj (i j : Int) (x y : List Char)
    (h : fmtInt i ++ '-' :: x = fmtInt j ++ '-' :: y) : i = j := by
  have hnd : ∀ n, '-' ∉ Nat.toDigits 10 n := fun n hc => (toDigitsCore_chars _ _ _ hc).1 rfl
  unfold fmtInt at h
  by_cases hi : i < 0 <;> by_cases hj : j < 0
  · simp only [hi, hj, if_true, List.cons_append, List.cons.injEq, true_and] at h
    have := (eq_of_append_sep '-' _ _ _ _ (hnd _) (hnd _) h).1
    have := toDigits_injective _ _ this
    omega
  · simp only [hi, hj, if_true, if_false, List.cons_append] at h
    cases hd : Nat.toDigits 10 j.natAbs with
    | nil => exact absurd hd (toDigits_ne_nil _)
    | cons c cs =>
      rw [hd] at h
      simp only [List.cons_append, List.cons.injEq] at h
      have : c ∈ Nat.toDigits 10 j.natAbs := by rw [hd]; simp
      exact absurd h.1.symm (toDigitsCore_chars _ _ _ this).1
  · simp only [hi, hj, if_true, if_false, List.cons_append] at h
    cases hd : Nat.toDigits 10 i.natAbs with
    | nil => exact absurd hd (toDigits_ne_nil _)
    | cons c cs =>
      rw [hd] at h
      simp only [List.cons_append, List.cons.injEq] at h
      have : c ∈ Nat.toDigits 10 i.natAbs := by rw [hd]; simp
      exact absurd h.1 (toDigitsCore_chars _ _ _ this).1
  · simp only [hi, hj, if_false] at h
    have := (eq_of_append_sep '-' _ _ _ _ (hnd _) (hnd _) h).1
    have := toDigits_injective _ _ this
    omega

/-! ### Output naming -/

theorem vformat_index_dash_string (i : Int) (p : List Char) :
    vformat ['%', 'd', '-', '%', 's'] [Arg.int i, Arg.str p] = some (fmtInt i ++ '-' :: p) := by
  simp [vformat]

theorem vformat_cons_literal (c : Char) (hc : c ≠ '%') (rest : List Char) (args : List Arg) :
    vformat (c :: rest) args = (vformat rest args).map (fun out => c :: out) := by
  rw [vformat.eq_def]
  simp only [hc, if_false]

theorem vformat_literal_append (pre : List Char) (hpre : '%' ∉ pre) (rest : List Char)
    (args : List Arg) :
    vformat (pre ++ rest) args = (vformat rest args).map (fun out => pre ++ out) := by
  induction pre with
  | nil => simp
  | cons c cs ih =>
    have hc : c ≠ '%' := fun h => hpre (by rw [h]; simp)
    have hcs : '%' ∉ cs := fun h => hpre (List.mem_cons_of_mem _ h)
    rw [List.cons_append, vformat_cons_literal c hc, ih hcs]
    cases vformat rest args <;> simp

theorem vformat_literal (s : List Char) (hs : '%' ∉ s) (args : List Arg) :
    vformat s args = some s := by
  have := vformat_literal_append s hs [] args
  simpa [vformat] using this

theorem vformat_single_placeholder (pre post : List Char) (hpre : '%' ∉ pre) (hpost : '%' ∉ post)
    (i : Int) :
    vformat (pre ++ '%' :: 'd' :: post) [Arg.int i] = some (pre ++ (fmtInt i ++ post)) := by
  rw [vformat_literal_append pre hpre]
  simp [vformat, vformat_literal post hpost]

theorem enumerated_path_plain (PATH_MAX : Nat) (pattern : List Char) (i : Int)
    (hno : ¬ (['%', 'd'] <:+: pattern)) :
    enumerated_path PATH_MAX (some pattern) i
      = some ((fmtInt i ++ '-' :: pattern).take (PATH_MAX - 1)) := by
  simp [enumerated_path, hno, snprintf, vformat_index_dash_string]

theorem enumerated_path_placeholder (PATH_MAX : Nat) (pre post : List Char) (i : Int)
    (hpre : '%' ∉ pre) (hpost : '%' ∉ post) :
    enumerated_path PATH_MAX (some (pre ++ '%' :: 'd' :: post)) i
      = some ((pre ++ (fmtInt i ++ post)).take (PATH_MAX - 1)) := by
  have hin : ['%', 'd'] <:+: pre ++ '%' :: 'd' :: post := ⟨pre, post, by simp⟩
  simp only [enumerated_path, hin, not_true_eq_false, if_false, snprintf,
    vformat_single_placeholder pre post hpre hpost, Option.map_some']


theorem no_placeholder_replicate (n : Nat) : ¬ (['%', 'd'] <:+: List.replicate n 'a') := by
  intro h
  have := h.subset (List.mem_cons_self _ _)
  exact absurd (List.eq_of_mem_replicate this) (by decide)

theorem take_ne_of_length_lt (n : Nat) (xs : List Char) (h : n < xs.length) :
    xs.take n ≠ xs := by
  intro he
  have := congrArg List.length he
  rw [List.length_take] at this
  omega

theorem take_index_dash (n : Nat) (i : Int) (x : List Char) (h : (fmtInt i).length < n) :
    (fmtInt i ++ '-' :: x).take n
      = fmtInt i ++ '-' :: x.take (n - (fmtInt i).length - 1) := by
  rw [List.take_append_eq_append_take, List.take_of_length_le (by omega)]
  obtain ⟨m, hm⟩ : ∃ m, n - (fmtInt i).length = m + 1 := ⟨n - (fmtInt i).length - 1, by omega⟩
  rw [hm, List.take_succ_cons]
  simp

/-- C3: with the pattern `-` and the single track 0 the code opens the named file `0--`
for writing, with the empty pattern the file `0-`, and with no pattern it passes a null
pointer to `strstr`; in no case is the standard output descriptor returned. -/
theorem open_enumerated_file_never_stdout :
    open_enumerated_file LINUX_PATH_MAX (some ['-']) IO_OUTPUT 0
      = some (FileAction.sys "0--".toList OpenFlags.wronly_creat_trunc) ∧
    open_enumerated_file LINUX_PATH_MAX (some []) IO_OUTPUT 0
      = some (FileAction.sys "0-".toList OpenFlags.wronly_creat_trunc) ∧
    open_enumerated_file LINUX_PATH_MAX none IO_OUTPUT 0 = none ∧
    open_file (some ['-']) IO_OUTPUT = FileAction.std STDOUT_FILENO ∧
    open_file none IO_OUTPUT = FileAction.std STDOUT_FILENO := by
  decide

/-- C4, as stated, fails: for the pattern of 4096 letters `a` and index 0 the path handed
to `open_file` is not the index, a dash and the whole pattern. -/
theorem enumerated_path_plain_counterexample :
    ¬ (['%', 'd'] <:+: List.replicate 4096 'a') ∧
    enumerated_path LINUX_PATH_MAX (some (List.replicate 4096 'a')) 0
      ≠ some (fmtInt 0 ++ '-' :: List.replicate 4096 'a') := by
  refine ⟨no_placeholder_replicate _, ?_⟩
  rw [enumerated_path_plain _ _ _ (no_placeholder_replicate _)]
  intro h
  have h0 : fmtInt 0 = ['0'] := by decide
  rw [h0] at h
  refine take_ne_of_length_lt _ _ ?_ (Option.some.inj h)
  simp only [List.length_append, List.length_cons, List.length_nil, List.length_replicate,
    LINUX_PATH_MAX]
  omega

/-- C4 (amended): for a pattern without `%d` the path handed to `open_file` is the first
`PATH_MAX - 1` characters of the decimal index, a dash and the pattern, hence that whole
string when it is shorter than `PATH_MAX`; `song.wav` gives `0-song.wav` and
`1-song.wav`. -/
theorem enumerated_path_plain_truncated (PATH_MAX : Nat) (pattern : List Char) (mode : Int)
    (i : Int) (hno : ¬ (['%', 'd'] <:+: pattern)) :
    enumerated_path PATH_MAX (some pattern) i
      = some ((fmtInt i ++ '-' :: pattern).take (PATH_MAX - 1)) ∧
    open_enumerated_file PATH_MAX (some pattern) mode i
      = some (open_file (some ((fmtInt i ++ '-' :: pattern).take (PATH_MAX - 1))) mode) ∧
    ((fmtInt i ++ '-' :: pattern).length < PATH_MAX →
      enumerated_path PATH_MAX (some pattern) i = some (fmtInt i ++ '-' :: pattern)) ∧
    enumerated_path LINUX_PATH_MAX (some "song.wav".toList) 0 = some "0-song.wav".toList ∧
    enumerated_path LINUX_PATH_MAX (some "song.wav".toList) 1 = some "1-song.wav".toList := by
  have h := enumerated_path_plain PATH_MAX pattern i hno
  refine ⟨h, by rw [open_enumerated_file, h]; rfl, ?_, by decide, by decide⟩
  intro hlen
  rw [h, List.take_of_length_le (by omega)]

theorem enumerated_path_plain_truncated_witness :
    ¬ (['%', 'd'] <:+: "song.wav".toList) ∧
    (enumerated_path LINUX_PATH_MAX (some "song.wav".toList) 1
      = some ((fmtInt 1 ++ '-' :: "song.wav".toList).take (LINUX_PATH_MAX - 1)) ∧
    open_enumerated_file LINUX_PATH_MAX (some "song.wav".toList) IO_OUTPUT 1
      = some (open_file
          (some ((fmtInt 1 ++ '-' :: "song.wav".toList).take (LINUX_PATH_MAX - 1))) IO_OUTPUT) ∧
    ((fmtInt 1 ++ '-' :: "song.wav".toList).length < LINUX_PATH_MAX →
      enumerated_path LINUX_PATH_MAX (some "song.wav".toList) 1
        = some (fmtInt 1 ++ '-' :: "song.wav".toList)) ∧
    enumerated_path LINUX_PATH_MAX (some "song.wav".toList) 0 = some "0-song.wav".toList ∧
    enumerated_path LINUX_PATH_MAX (some "song.wav".toList) 1 = some "1-song.wav".toList) :=
  ⟨by decide,
    enumerated_path_plain_truncated LINUX_PATH_MAX "song.wav".toList IO_OUTPUT 1 (by decide)⟩

theorem split_double_percent (pre post : List Char)
    (h : ['%', '%', 'd'] = pre ++ ['%', 'd'] ++ post) : pre = ['%'] ∧ post = [] := by
  match pre, h with
  | [], h => simp at h
  | [c], h =>
    simp only [List.cons_append, List.nil_append, List.cons.injEq, true_and] at h
    obtain ⟨rfl, h2⟩ := h
    exact ⟨rfl, h2.symm⟩
  | c :: d :: rest, h =>
    have := congrArg List.length h
    simp at this
    omega

theorem split_leading_placeholder (x pre post : List Char) (hx : '%' ∉ x)
    (h : '%' :: 'd' :: x = pre ++ ['%', 'd'] ++ post) : pre = [] ∧ post = x := by
  cases pre with
  | nil => simpa using h.symm
  | cons c cs =>
    simp only [List.cons_append, List.append_assoc, List.cons.injEq] at h
    obtain ⟨-, h2⟩ := h
    cases cs with
    | nil =>
      simp only [List.nil_append, List.cons_append, List.cons.injEq] at h2
      exact absurd h2.1 (by decide)
    | cons e es =>
      simp only [List.cons_append, List.cons.injEq] at h2
      have : '%' ∈ x := by rw [h2.2]; simp
      exact absurd this hx

/-- C5, as stated, fails: for the pattern `%%d` the path is `%d`, with no index in it; and
for `%d` followed by 4096 letters `a` the path is cut short. -/
theorem enumerated_path_placeholder_counterexample :
    (['%', 'd'] <:+: "%%d".toList ∧
      enumerated_path LINUX_PATH_MAX (some "%%d".toList) 0 = some "%d".toList ∧
      ¬ ∃ pre post : List Char, "%%d".toList = pre ++ ['%', 'd'] ++ post ∧
          enumerated_path LINUX_PATH_MAX (some "%%d".toList) 0
            = some (pre ++ fmtInt 0 ++ post)) ∧
    (['%', 'd'] <:+: '%' :: 'd' :: List.replicate 4096 'a' ∧
      ¬ ∃ pre post : List Char,
          '%' :: 'd' :: List.replicate 4096 'a' = pre ++ ['%', 'd'] ++ post ∧
          enumerated_path LINUX_PATH_MAX (some ('%' :: 'd' :: List.replicate 4096 'a')) 0
            = some (pre ++ fmtInt 0 ++ post)) := by
  have ha : '%' ∉ List.replicate 4096 'a' := fun h =>
    absurd (List.eq_of_mem_replicate h) (by decide)
  refine ⟨⟨by decide, by decide, ?_⟩, ⟨⟨[], List.replicate 4096 'a', rfl⟩, ?_⟩⟩
  · rintro ⟨pre, post, hsplit, hpath⟩
    obtain ⟨rfl, rfl⟩ := split_double_percent pre post hsplit
    revert hpath
    decide
  · rintro ⟨pre, post, hsplit, hpath⟩
    obtain ⟨rfl, rfl⟩ := split_leading_placeholder _ pre post ha hsplit
    have := enumerated_path_placeholder LINUX_PATH_MAX [] (List.replicate 4096 'a') 0
      (List.not_mem_nil _) ha
    rw [List.nil_append, List.nil_append] at this
    rw [List.nil_append, this] at hpath
    have h0 : fmtInt 0 = ['0'] := by decide
    rw [h0] at hpath
    refine take_ne_of_length_lt _ _ ?_ (Option.some.inj hpath)
    simp only [List.length_append, List.length_cons, List.length_nil, List.length_replicate,
      LINUX_PATH_MAX]
    omega

/-- C5 (amended): for a pattern whose only `%` is the one of a single `%d`, the path
handed to `open_file` is the first `PATH_MAX - 1` characters of the pattern with `%d`
replaced by the decimal index, hence that whole string when it is shorter than
`PATH_MAX`. -/
theorem enumerated_path_placeholder_truncated (PATH_MAX : Nat) (pre post : List Char)
    (mode : Int) (i : Int) (hpre : '%' ∉ pre) (hpost : '%' ∉ post) :
    enumerated_path PATH_MAX (some (pre ++ ['%', 'd'] ++ post)) i
      = some ((pre ++ fmtInt i ++ post).take (PATH_MAX - 1)) ∧
    open_enumerated_file PATH_MAX (some (pre ++ ['%', 'd'] ++ post)) mode i
      = some (open_file (some ((pre ++ fmtInt i ++ post).take (PATH_MAX - 1))) mode) ∧
    ((pre ++ fmtInt i ++ post).length < PATH_MAX →
      enumerated_path PATH_MAX (some (pre ++ ['%', 'd'] ++ post)) i
        = some (pre ++ fmtInt i ++ post)) := by
  have h : enumerated_path PATH_MAX (some (pre ++ ['%', 'd'] ++ post)) i
      = some ((pre ++ fmtInt i ++ post).take (PATH_MAX - 1)) := by
    have := enumerated_path_placeholder PATH_MAX pre post i hpre hpost
    simpa [List.append_assoc] using this
  refine ⟨h, by rw [open_enumerated_file, h]; rfl, ?_⟩
  intro hlen
  rw [h, List.take_of_length_le (by omega)]

theorem enumerated_path_placeholder_truncated_witness :
    '%' ∉ "track".toList ∧ '%' ∉ ".wav".toList ∧
    (enumerated_path LINUX_PATH_MAX (some ("track".toList ++ ['%', 'd'] ++ ".wav".toList)) 12
      = some (("track".toList ++ fmtInt 12 ++ ".wav".toList).take (LINUX_PATH_MAX - 1)) ∧
    open_enumerated_file LINUX_PATH_MAX (some ("track".toList ++ ['%', 'd'] ++ ".wav".toList))
        IO_OUTPUT 12
      = some (open_file
          (some (("track".toList ++ fmtInt 12 ++ ".wav".toList).take (LINUX_PATH_MAX - 1)))
          IO_OUTPUT) ∧
    (("track".toList ++ fmtInt 12 ++ ".wav".toList).length < LINUX_PATH_MAX →
      enumerated_path LINUX_PATH_MAX (some ("track".toList ++ ['%', 'd'] ++ ".wav".toList)) 12
        = some ("track".toList ++ fmtInt 12 ++ ".wav".toList))) :=
  ⟨by decide, by decide,
    enumerated_path_placeholder_truncated LINUX_PATH_MAX "track".toList ".wav".toList IO_OUTPUT 12
      (by decide) (by decide)⟩

/-- C9: for a pattern without `%d` and two distinct `int` indices, `open_enumerated_file`
opens two named files whose paths differ (for every `PATH_MAX` of at least 256, the
least value POSIX allows). -/
theorem open_enumerated_file_distinct (PATH_MAX : Nat) (pattern : List Char) (i j : Int)
    (hP : 256 ≤ PATH_MAX) (hi : -2 ^ 31 ≤ i ∧ i < 2 ^ 31) (hj : -2 ^ 31 ≤ j ∧ j < 2 ^ 31)
    (hno : ¬ (['%', 'd'] <:+: pattern)) (hij : i ≠ j) :
    ∃ pi pj : List Char,
      open_enumerated_file PATH_MAX (some pattern) IO_OUTPUT i
        = some (FileAction.sys pi OpenFlags.wronly_creat_trunc) ∧
      open_enumerated_file PATH_MAX (some pattern) IO_OUTPUT j
        = some (FileAction.sys pj OpenFlags.wronly_creat_trunc) ∧
      pi ≠ pj := by
  have hli := fmtInt_length_le i hi.1 hi.2
  have hlj := fmtInt_length_le j hj.1 hj.2
  have key : ∀ k : Int, (fmtInt k).length ≤ 11 →
      open_enumerated_file PATH_MAX (some pattern) IO_OUTPUT k
        = some (FileAction.sys
            (fmtInt k ++ '-' :: pattern.take (PATH_MAX - 1 - (fmtInt k).length - 1))
            OpenFlags.wronly_creat_trunc) := by
    intro k hk
    have hne : fmtInt k ++ '-' :: pattern.take (PATH_MAX - 1 - (fmtInt k).length - 1) ≠ ['-'] := by
      intro h
      have hlen := congrArg List.length h
      have := List.length_pos.2 (fmtInt_ne_nil k)
      simp only [List.length_append, List.length_cons, List.length_nil] at hlen
      omega
    rw [open_enumerated_file, enumerated_path_plain _ _ _ hno,
      take_index_dash (PATH_MAX - 1) k pattern (by omega)]
    simp [open_file, hne, IO_OUTPUT, IO_INPUT]
  refine ⟨_, _, key i hli, key j hlj, ?_⟩
  intro h
  exact hij (fmtInt_dash_inj i j _ _ h)

theorem open_enumerated_file_distinct_witness :
    256 ≤ LINUX_PATH_MAX ∧ (-2 ^ 31 ≤ (0 : Int) ∧ (0 : Int) < 2 ^ 31) ∧
    (-2 ^ 31 ≤ (1 : Int) ∧ (1 : Int) < 2 ^ 31) ∧
    ¬ (['%', 'd'] <:+: "song.wav".toList) ∧ (0 : Int) ≠ 1 ∧
    ∃ pi pj : List Char,
      open_enumerated_file LINUX_PATH_MAX (some "song.wav".toList) IO_OUTPUT 0
        = some (FileAction.sys pi OpenFlags.wronly_creat_trunc) ∧
      open_enumerated_file LINUX_PATH_MAX (some "song.wav".toList) IO_OUTPUT 1
        = some (FileAction.sys pj OpenFlags.wronly_creat_trunc) ∧
      pi ≠ pj :=
  ⟨by decide, by decide, by decide, by decide, by decide,
    open_enumerated_file_distinct LINUX_PATH_MAX "song.wav".toList 0 1 (by decide) (by decide)
      (by decide) (by decide) (by decide)⟩

/-! ## Proofs: the decode loop -/

theorem emuAt_succ_shift {σ : Type} (E : Emu σ) (emu : σ) (k : Nat) :
    emuAt E emu (k + 1) = emuAt E (E.gme_play emu 1024).2.2 k := by
  induction k with
  | zero => rfl
  | succ k ih => rw [emuAt, ih]; rfl

theorem chunkAt_succ_shift {σ : Type} (E : Emu σ) (emu : σ) (k : Nat) :
    chunkAt E emu (k + 1) = chunkAt E (E.gme_play emu 1024).2.2 k := by
  unfold chunkAt; rw [emuAt_succ_shift]

theorem stopsAt_succ_shift {σ : Type} (E : Emu σ) (duration : Int) (emu : σ) (k : Nat) :
    StopsAt E duration emu (k + 1) ↔ StopsAt E duration (E.gme_play emu 1024).2.2 k := by
  unfold StopsAt; rw [emuAt_succ_shift]

theorem foldl_range_succ_shift {κ : Type} (f : Nat → κ → κ) (n : Nat) (c : κ) :
    (List.range (n + 1)).foldl (fun c k => f k c) c
      = (List.range n).foldl (fun c k => f (k + 1) c) (f 0 c) := by
  rw [List.range_succ_eq_map, List.foldl_cons, List.foldl_map]

theorem play_loop_first_stop {σ κ : Type} (E : Emu σ) (duration : Int)
    (sample_handler : List Int → Nat → κ → κ) (n : Nat) :
    ∀ (fuel : Nat) (emu : σ) (ctx : κ), n < fuel →
      (∀ k, k < n → ¬ StopsAt E duration emu k) → StopsAt E duration emu n →
      ∃ r : PlayResult σ κ,
        play_loop E duration sample_handler fuel emu ctx = some r ∧
        r.ctx = (List.range n).foldl
          (fun c k => sample_handler (chunkAt E emu k) 1024 c) ctx ∧
        (duration * 1000 ≤ E.gme_tell (emuAt E emu n) →
          r.ret = true ∧ r.stderr = [] ∧ r.emu = emuAt E emu n) ∧
        (E.gme_tell (emuAt E emu n) < duration * 1000 →
          r.ret = false ∧ ∃ msg, (E.gme_play (emuAt E emu n) 1024).1 = some msg ∧
            r.stderr = [print_error msg]) := by
  induction n with
  | zero =>
    intro fuel emu ctx hfuel _ hstop
    obtain ⟨f, rfl⟩ : ∃ f, fuel = f + 1 := ⟨fuel - 1, by omega⟩
    by_cases hpos : E.gme_tell emu < duration * 1000
    · have herr : (E.gme_play emu 1024).1 ≠ none := by
        rcases hstop with h | h
        · exact absurd h (by simpa [emuAt] using hpos)
        · exact h
      obtain ⟨msg, hmsg⟩ := Option.ne_none_iff_exists'.1 herr
      rcases hplay : E.gme_play emu 1024 with ⟨err, samplebuf, emu'⟩
      rw [hplay] at hmsg
      simp only at hmsg
      subst hmsg
      refine ⟨{ ret := false, emu := emu', ctx := ctx, stderr := [print_error msg] }, ?_, rfl, ?_, ?_⟩
      · simp [play_loop, hpos, hplay]
      · intro h; exact absurd h (by simpa [emuAt] using hpos)
      · intro _; exact ⟨rfl, msg, by simp [emuAt, hplay], rfl⟩
    · refine ⟨{ ret := true, emu := emu, ctx := ctx, stderr := [] }, ?_, rfl, ?_, ?_⟩
      · simp [play_loop, hpos]
      · intro _; exact ⟨rfl, rfl, rfl⟩
      · intro h; exact absurd h (by simpa [emuAt] using hpos)
  | succ n ih =>
    intro fuel emu ctx hfuel hbefore hstop
    obtain ⟨f, rfl⟩ : ∃ f, fuel = f + 1 := ⟨fuel - 1, by omega⟩
    have h0 := hbefore 0 (by omega)
    simp only [StopsAt, emuAt, not_or, not_le, ne_eq, not_not] at h0
    obtain ⟨hpos, herr⟩ := h0
    rcases hplay : E.gme_play emu 1024 with ⟨err, samplebuf, emu'⟩
    rw [hplay] at herr
    simp only at herr
    subst herr
    have hnext : (E.gme_play emu 1024).2.2 = emu' := by rw [hplay]
    have hchunk : chunkAt E emu 0 = samplebuf := by simp [chunkAt, emuAt, hplay]
    have hb : ∀ k, k < n → ¬ StopsAt E duration emu' k := by
      intro k hk hs
      exact hbefore (k + 1) (by omega) (by rw [stopsAt_succ_shift, hnext]; exact hs)
    have hs : StopsAt E duration emu' n := by
      rw [stopsAt_succ_shift, hnext] at hstop; exact hstop
    obtain ⟨r, hr, hctx, htrue, hfalse⟩ :=
      ih f emu' (sample_handler samplebuf 1024 ctx) (by omega) hb hs
    refine ⟨r, ?_, ?_, ?_, ?_⟩
    · simp [play_loop, hpos, hplay, hr]
    · rw [hctx, foldl_range_succ_shift (fun k c => sample_handler (chunkAt E emu k) 1024 c),
        hchunk]
      simp only [chunkAt_succ_shift, hnext]
    · rw [emuAt_succ_shift, hnext]; exact htrue
    · rw [emuAt_succ_shift, hnext]; exact hfalse

/-- C8: when `n` is the first iteration at which the position has reached
`duration * 1000` or the decode call reports an error, `play` returns (given more than
`n` iterations), the consumer has been called exactly once for each of the iterations
`0, ..., n - 1`, in order, with that iteration's buffer and the size 1024, and the result
is `true` with nothing reported in the first case, `false` with the error reported in the
second. -/
theorem play_stops_at_first {σ κ : Type} (E : Emu σ) (fuel : Nat) (emu : σ)
    (track duration fadeout : Int) (pan : Double) (sample_handler : List Int → Nat → κ → κ)
    (ctx : κ) (n : Nat) (hfuel : n < fuel)
    (hbefore : ∀ k, k < n →
      ¬ StopsAt E duration (play_setup E emu track duration fadeout pan) k)
    (hstop : StopsAt E duration (play_setup E emu track duration fadeout pan) n) :
    ∃ r : PlayResult σ κ,
      play E fuel emu track duration fadeout pan sample_handler ctx = some r ∧
      r.ctx = (List.range n).foldl
        (fun c k =>
          sample_handler (chunkAt E (play_setup E emu track duration fadeout pan) k) 1024 c)
        ctx ∧
      (duration * 1000
          ≤ E.gme_tell (emuAt E (play_setup E emu track duration fadeout pan) n) →
        r.ret = true ∧ r.stderr = [] ∧
          r.emu = emuAt E (play_setup E emu track duration fadeout pan) n) ∧
      (E.gme_tell (emuAt E (play_setup E emu track duration fadeout pan) n)
          < duration * 1000 →
        r.ret = false ∧
          ∃ msg,
            (E.gme_play (emuAt E (play_setup E emu track duration fadeout pan) n) 1024).1
              = some msg ∧
            r.stderr = [print_error msg]) :=
  play_loop_first_stop E duration sample_handler n fuel _ ctx hfuel hbefore hstop

theorem play_stops_at_first_witness :
    2 < 10 ∧
    (∀ k, k < 2 → ¬ StopsAt toyEmu 1 (play_setup toyEmu 0 0 1 0 ⟨0⟩) k) ∧
    StopsAt toyEmu 1 (play_setup toyEmu 0 0 1 0 ⟨0⟩) 2 ∧
    ∃ r : PlayResult Nat (List (List Int × Nat)),
      play toyEmu 10 0 0 1 0 ⟨0⟩ record_samples [] = some r ∧
      r.ctx = (List.range 2).foldl
        (fun c k => record_samples (chunkAt toyEmu (play_setup toyEmu 0 0 1 0 ⟨0⟩) k) 1024 c)
        [] ∧
      ((1 : Int) * 1000 ≤ toyEmu.gme_tell (emuAt toyEmu (play_setup toyEmu 0 0 1 0 ⟨0⟩) 2) →
        r.ret = true ∧ r.stderr = [] ∧
          r.emu = emuAt toyEmu (play_setup toyEmu 0 0 1 0 ⟨0⟩) 2) ∧
      (toyEmu.gme_tell (emuAt toyEmu (play_setup toyEmu 0 0 1 0 ⟨0⟩) 2) < (1 : Int) * 1000 →
        r.ret = false ∧
          ∃ msg,
            (toyEmu.gme_play (emuAt toyEmu (play_setup toyEmu 0 0 1 0 ⟨0⟩) 2) 1024).1
              = some msg ∧
            r.stderr = [print_error msg]) :=
  ⟨by decide, by decide, by decide,
    play_stops_at_first toyEmu 10 0 0 1 0 ⟨0⟩ record_samples [] 2 (by decide) (by decide)
      (by decide)⟩

/-- C6: on the two-track decoder, selecting track 5 makes `gme_start_track` report an
error, yet `play` goes on: it requests two chunks, hands both to the consumer, reports
nothing and returns `true`. -/
theorem play_ignores_setup_error :
    (toyEmu.gme_start_track 0 5).1 = some "Invalid track" ∧
    (play toyEmu 10 0 5 1 0 ⟨0⟩ record_samples []).map
        (fun r => (r.ret, r.ctx.map Prod.snd, r.stderr, r.emu))
      = some (true, [1024, 1024], [], 1000) := by
  decide

/-! ## Proofs: the driver -/

/-- The run of `main` behind the witness above, written out: the output of track 0 cannot
be opened, no sound file handle can be created for track 1, track 2 plays to its end and
the decoding of track 3 fails; all four outputs are requested, and open(2) has seen the
four paths in order. With `-t 2` the one request is for index 2. -/
theorem main_mixed_outcomes_run :
    main mixSys 10 LINUX_PATH_MAX toyAtol toyAtof [('o', "out.wav".toList), ('d', "1".toList)]
        (some "in.nsf".toList) []
      = some { rc := EXIT_FAILURE,
               attempts :=
                 [{ index := 0,
                    action := FileAction.sys "0-out.wav".toList OpenFlags.wronly_creat_trunc,
                    output := -1, outcome := TrackOutcome.open_failed },
                  { index := 1,
                    action := FileAction.sys "1-out.wav".toList OpenFlags.wronly_creat_trunc,
                    output := 5, outcome := TrackOutcome.sink_failed },
                  { index := 2,
                    action := FileAction.sys "2-out.wav".toList OpenFlags.wronly_creat_trunc,
                    output := 6, outcome := TrackOutcome.played true },
                  { index := 3,
                    action := FileAction.sys "3-out.wav".toList OpenFlags.wronly_creat_trunc,
                    output := 7, outcome := TrackOutcome.played false }],
               world := ["in.nsf".toList, "0-out.wav".toList, "1-out.wav".toList,
                         "2-out.wav".toList, "3-out.wav".toList] } ∧
    (main mixSys 10 LINUX_PATH_MAX toyAtol toyAtof
        [('o', "out.wav".toList), ('d', "1".toList), ('t', "2".toList)]
        (some "in.nsf".toList) []).map (fun out => (out.attempts.map Attempt.index, out.world))
      = some ([2], ["in.nsf".toList, "2-out.wav".toList]) := by
  decide

/-- The exit status of `main` is `EXIT_SUCCESS` only on the path that prints the help. -/
theorem main_success_only_for_help {ω σ : Type} (S : Sys ω σ) (fuel PATH_MAX : Nat)
    (atol : List Char → Int) (atof : List Char → Double) (getopt : List (Char × List Char))
    (operand : Option (List Char)) (w : ω) (out : MainResult ω)
    (h : main S fuel PATH_MAX atol atof getopt operand w = some out) :
    out.rc = EXIT_SUCCESS ↔
      ∃ opts, init_options atol atof getopt operand = some opts ∧ opts.help = true := by
  have hne : EXIT_FAILURE ≠ EXIT_SUCCESS := by decide
  unfold main at h
  cases hopts : init_options atol atof getopt operand with
  | none =>
    rw [hopts] at h
    simp only [Option.some.injEq] at h
    subst h
    simp [hne]
  | some opts =>
    rw [hopts] at h
    simp only at h
    by_cases hhelp : opts.help = true
    · simp only [hhelp, if_true, Option.some.injEq] at h
      subst h
      simp [hhelp]
    · simp only [hhelp, Bool.false_eq_true, if_false] at h
      have hrc : out.rc = EXIT_FAILURE := by
        revert h
        rcases perform S w (open_file opts.input IO_INPUT) with ⟨input, w1⟩
        simp only
        split
        · split
          · split
            · split
              · intro h; exact absurd h (by simp)
              · intro h; simp only [Option.some.injEq] at h; subst h; rfl
            · intro h; simp only [Option.some.injEq] at h; subst h; rfl
          · intro h; simp only [Option.some.injEq] at h; subst h; rfl
        · intro h; simp only [Option.some.injEq] at h; subst h; rfl
      simp [hrc, hne, hhelp]

/-- C1: the options `-o out.wav -d 1 in.nsf` parse, help is not requested, the input
opens, is buffered and is accepted by the decoder, and both tracks are rendered; the exit
status of `main` is nevertheless `EXIT_FAILURE`. -/
theorem main_completed_run_exit_failure :
    init_options toyAtol toyAtof [('o', "out.wav".toList), ('d', "1".toList)]
        (some "in.nsf".toList) = some toyOpts ∧
    main toySys 10 LINUX_PATH_MAX toyAtol toyAtof [('o', "out.wav".toList), ('d', "1".toList)]
        (some "in.nsf".toList) []
      = some { rc := EXIT_FAILURE,
               attempts :=
                 [{ index := 0,
                    action := FileAction.sys "0-out.wav".toList OpenFlags.wronly_creat_trunc,
                    output := 3, outcome := TrackOutcome.played true },
                  { index := 1,
                    action := FileAction.sys "1-out.wav".toList OpenFlags.wronly_creat_trunc,
                    output := 3, outcome := TrackOutcome.played true }],
               world := ["in.nsf".toList, "0-out.wav".toList, "1-out.wav".toList] } ∧
    EXIT_FAILURE ≠ EXIT_SUCCESS := by
  decide

end Blip
